import Mathlib

/-!
Verification of the similarity-search core of `src/streamlit_app.py`
(repository `cfle/mtg_oracle`).

The Python program resolves a card name through an external service,
looks up the card's embedding row, normalizes it, queries a
nearest-neighbor index, and filters the resulting candidate list.
The definitions below are a shallow embedding of that code:

* card dictionaries become the `Card` structure; text fields are
  modelled as lists of characters, numeric scores as rationals;
* the Scryfall HTTP call of `try_get_card_text_from_name` becomes a
  `ResolverResult` value describing what the network returned;
* the faiss call `index.search` and the numeric routine
  `np.linalg.norm` are numerical-library collaborators and appear as
  function parameters of `runSearch` (a Euclidean norm is generally
  irrational, so it cannot be a rational-valued definition);
* the list comprehension and `matches_color` of `main` (lines 150-164)
  become `filterResults` and `matches_color`.
-/

/-- A card record, as consumed by the search core of `main`.  The
Python code reads the fields with `card.get(...)`, so every field that
can be absent from the dictionary is an `Option`; the `id` field is
read with both `card["id"]` and `card.get("id")` and is present on
every record the program handles, so it is modelled as a plain string.
Text is modelled as a list of characters because `get_card_text`
performs character-level matching on it. -/
structure Card where
  id : String
  name : Option (List Char)
  oracle_text : Option (List Char)
  keywords : Option (List (List Char))
  color_identity : Option (List String)
deriving DecidableEq

/-- Stand-in record for an out-of-range list access `cards[idx]`; the
faiss index only returns positions of rows that exist, so this default
is a totality device only. -/
def emptyCard : Card :=
  { id := "", name := none, oracle_text := none, keywords := none,
    color_identity := none }

/-- Line 21: `SIMILARITY_THRESHOLD = 0.4`. -/
def SIMILARITY_THRESHOLD : ℚ := 0.4

/-- Lines 157-161, the inner function `matches_color` of `main`:
`identity = card.get("color_identity", [])`; when the colorless marker
`"C"` is among the selected colors the card passes if its identity is
empty, or if some selected color other than `"C"` occurs in the
identity; otherwise it passes if some selected color occurs in the
identity. -/
def matches_color (selected : List String) (card : Card) : Bool :=
  let identity := card.color_identity.getD []
  if "C" ∈ selected then
    (identity.isEmpty && decide ("C" ∈ selected)) ||
      selected.any (fun c => !decide (c = "C") && decide (c ∈ identity))
  else
    selected.any (fun c => decide (c ∈ identity))

/-- Lines 151-155 and 163-164 of `main`: one pass keeps a candidate
when `score >= SIMILARITY_THRESHOLD and cards[idx].get("id") !=
resolved_card.get("id")`; then, only when the selected-color list is
nonempty (`if selected_colors:`), a second pass keeps the candidates
accepted by `matches_color`. -/
def filterResults (candidates : List (ℚ × Card)) (excludedId : String)
    (selected : List String) : List (ℚ × Card) :=
  let results := candidates.filter
    (fun p => decide (SIMILARITY_THRESHOLD ≤ p.1) && !decide (p.2.id = excludedId))
  if selected = [] then results
  else results.filter (fun p => matches_color selected p.2)

/-- Line 142: `next(i for i, c in enumerate(cards) if c["id"] ==
resolved_card["id"])` — the first corpus position whose record has the
given id, or `none` (the Python generator raises `StopIteration`,
caught at line 145). -/
def findRefIndex (cards : List Card) (targetId : String) : Option Nat :=
  match cards with
  | [] => none
  | c :: rest =>
    if c.id = targetId then some 0
    else (findRefIndex rest targetId).map (fun i => i + 1)

/-- What the Scryfall lookup of `try_get_card_text_from_name` produced:
either the `requests.get` call raised (caught at line 98), or an HTTP
response with a status code and a decoded card payload. -/
inductive ResolverResult where
  | failure : ResolverResult
  | httpResponse : Nat → Card → ResolverResult
deriving DecidableEq

/-- Outcome of one run of the search pipeline in `main`:
`unresolved` models the early return at lines 134-137 ("Could not
resolve that card name"), `embeddingNotFound` the early return at
lines 145-148 ("Couldn't find prebuilt embedding"), and `results`
the filtered candidate list reaching the rendering code (an empty
list is the "No sufficiently similar cards found" branch). -/
inductive SearchOutcome where
  | unresolved : SearchOutcome
  | embeddingNotFound : SearchOutcome
  | results : List (ℚ × Card) → SearchOutcome
deriving DecidableEq

/-- ASCII model of the regex word-character class `\w` =
`[a-zA-Z0-9_]` used by the `\b` anchors in `get_card_text`.  It is
stated through `Char.toLower` so that the case-invariance of the
class (which holds of `[a-zA-Z0-9_]`: lowering maps `A`-`Z` onto
`a`-`z` and fixes digits and underscore) is definitional. -/
def isWordChar (c : Char) : Bool :=
  let l := c.toLower
  (decide ('a' ≤ l) && decide (l ≤ 'z')) ||
    (decide ('0' ≤ l) && decide (l ≤ '9')) || decide (l = '_')

/-- Word-character status of the character at a string position, with
`none` for a position outside the string (regex treats both ends of
the subject as non-word context). -/
def wordOpt : Option Char → Bool
  | none => false
  | some c => isWordChar c

/-- The regex word-boundary test `\b` between two adjacent positions:
it holds when exactly one side is a word character. -/
def boundary (a b : Option Char) : Bool :=
  wordOpt a != wordOpt b

/-- Case-insensitive character match, as `re.IGNORECASE` compares the
escaped literal pattern characters (ASCII model). -/
def ciEq (a b : Char) : Bool :=
  a.toLower == b.toLower

/-- Case-insensitive test that `name` matches the leading characters
of `s`. -/
def ciLeading : List Char → List Char → Bool
  | [], _ => true
  | _ :: _, [] => false
  | a :: as, b :: bs => ciEq a b && ciLeading as bs

/-- A match of the compiled pattern `\b<escaped name>\b` at the
current position of the subject: `prev` is the subject character just
before the position (`none` at the start).  `re.escape` makes the name
a fixed-length literal, so a match is a case-insensitive occurrence of
the name flanked by word boundaries; the flanking tests read the
subject characters, as `\b` does. -/
def matchAt (name : List Char) (prev : Option Char) (s : List Char) : Bool :=
  !name.isEmpty && ciLeading name s && boundary prev s.head? &&
    boundary ((s.take name.length).getLast?) ((s.drop name.length).head?)

/-- The scan performed by `re.sub(pattern, repl, text, flags=re.IGNORECASE)`
for the fixed-length literal pattern of `get_card_text`: walk the
subject left to right; at a match emit the replacement and continue
just past the matched characters (matching always looks at the
original subject, never at emitted replacements); otherwise copy one
character.  `prev` carries the subject character preceding the current
position for the `\b` tests. -/
def scanSub (repl : List Char) (name : List Char)
    (prev : Option Char) (s : List Char) : List Char :=
  match s with
  | [] => []
  | c :: rest =>
    if h : matchAt name prev (c :: rest) = true then
      repl ++ scanSub repl name (((c :: rest).take name.length).getLast?)
        ((c :: rest).drop name.length)
    else
      c :: scanSub repl name (some c) rest
termination_by s.length
decreasing_by
  · have hne : name ≠ [] := by
      intro hnil
      simp [matchAt, hnil] at h
    have hlen : 1 ≤ name.length := by
      cases name with
      | nil => exact absurd rfl hne
      | cons x xs => simp
    simp [List.length_drop]
    omega
  · simp

/-- Python `str.strip()` on the ASCII whitespace the card texts
contain: drop whitespace from both ends. -/
def stripChars (s : List Char) : List Char :=
  ((s.dropWhile Char.isWhitespace).reverse.dropWhile Char.isWhitespace).reverse

/-- The replacement string of line 75. -/
def thisCardText : List Char :=
  String.toList "this card"

/-- Lines 71-77, `get_card_text(card)`:
`name = card.get("name", "")`; `text = card.get("oracle_text", "")`;
if the name is nonempty, substitute every `\b<escaped name>\b` match
in the text by "this card", case-insensitively; join the keywords with
single spaces; return `f"{text} {keywords}".strip()`. -/
def get_card_text (card : Card) : List Char :=
  let name := card.name.getD []
  let text := card.oracle_text.getD []
  let text2 := if name.isEmpty then text else scanSub thisCardText name none text
  let kws := List.intercalate [' '] (card.keywords.getD [])
  stripChars (text2 ++ ' ' :: kws)

/-- Lines 91-100, `try_get_card_text_from_name(name)`: on a raised
exception the function returns `(None, None)`; on an HTTP response it
returns `(get_card_text(card), card)` when the status is 200 and
`(None, None)` otherwise.  `main` (line 134) treats `None` as the
unresolved case. -/
def try_get_card_text_from_name (r : ResolverResult) : Option (List Char × Card) :=
  match r with
  | ResolverResult.failure => none
  | ResolverResult.httpResponse status card =>
    if status = 200 then some (get_card_text card, card) else none

/-- Lines 129-164 of `main`, the search pipeline for one submitted
query: resolve (early return when the resolver yields nothing), locate
the embedding row of the resolved card (early return when absent),
divide the row by its norm, query the index for 200 neighbors, map the
returned positions to card records, and filter.  `indexSearch` stands
for `index.search` and `normFn` for `np.linalg.norm`, the two
numerical-library collaborators. -/
def runSearch (r : ResolverResult) (cards : List Card)
    (embeddings : List (List ℚ))
    (indexSearch : List ℚ → Nat → List (ℚ × Nat))
    (selected : List String) (normFn : List ℚ → ℚ) : SearchOutcome :=
  match try_get_card_text_from_name r with
  | none => SearchOutcome.unresolved
  | some (_, resolved) =>
    match findRefIndex cards resolved.id with
    | none => SearchOutcome.embeddingNotFound
    | some refIndex =>
      let row := embeddings.getD refIndex []
      let queryVec := row.map (fun x => x / normFn row)
      let raw := indexSearch queryVec 200
      let candidates := raw.map (fun p => (p.1, cards.getD p.2 emptyCard))
      SearchOutcome.results (filterResults candidates resolved.id selected)

/-- Lines 143-144: `query_vec = embeddings[ref_index].reshape(1, -1)`
followed by `query_vec /= np.linalg.norm(query_vec)`.  NumPy basic
indexing yields a view and `reshape` preserves it, so the in-place
division writes through to row `refIndex` of the loaded embedding
matrix: the state after the statement is the matrix with that row
divided componentwise by the norm value `d`. -/
def applyQueryNormalization (embeddings : List (List ℚ)) (refIndex : Nat)
    (d : ℚ) : List (List ℚ) :=
  embeddings.set refIndex ((embeddings.getD refIndex []).map (fun x => x / d))

/-- The loaded embedding matrix as it stands after one run of the
search pipeline: it is untouched on the two early returns (the
in-place division of lines 143-144 is never reached) and has the
referenced row divided by its norm otherwise. -/
def embeddingsAfterSearch (r : ResolverResult) (cards : List Card)
    (embeddings : List (List ℚ)) (normFn : List ℚ → ℚ) : List (List ℚ) :=
  match try_get_card_text_from_name r with
  | none => embeddings
  | some (_, resolved) =>
    match findRefIndex cards resolved.id with
    | none => embeddings
    | some refIndex =>
      applyQueryNormalization embeddings refIndex
        (normFn (embeddings.getD refIndex []))

/-- Match test phrased from the specification side, for the claim that
`get_card_text` replaces every whole-word, case-insensitive occurrence
of the card name: the same case-insensitive occurrence test, but with
the word-boundary conditions read off the NAME's own characters (legal
because case-insensitively equal characters have the same
word-character status), and with the preceding context carried as a
word-status bit rather than a character. -/
def matchAtSpec (name : List Char) (prevW : Bool) (s : List Char) : Bool :=
  !name.isEmpty && ciLeading name s && (prevW != wordOpt name.head?) &&
    (wordOpt name.getLast? != wordOpt ((s.drop name.length).head?))

/-- Specification-side formulation of "every whole-word,
case-insensitive occurrence of the name replaced by the replacement
string": structural left-to-right rewriting driven by `matchAtSpec`,
carrying only the word-status of the previous character. -/
def replaceSpec (repl : List Char) (name : List Char)
    (prevW : Bool) (s : List Char) : List Char :=
  match s with
  | [] => []
  | c :: rest =>
    if h : matchAtSpec name prevW (c :: rest) = true then
      repl ++ replaceSpec repl name (wordOpt name.getLast?)
        ((c :: rest).drop name.length)
    else
      c :: replaceSpec repl name (isWordChar c) rest
termination_by s.length
decreasing_by
  · have hne : name ≠ [] := by
      intro hnil
      simp [matchAtSpec, hnil] at h
    have hlen : 1 ≤ name.length := by
      cases name with
      | nil => exact absurd rfl hne
      | cons x xs => simp
    simp [List.length_drop]
    omega
  · simp

/-- The claim's reading of `get_card_text`: the oracle text with every
whole-word, case-insensitive occurrence of the card's name replaced by
"this card", followed by a space and the keywords joined by single
spaces, with surrounding whitespace stripped; every absent field
defaults to empty. -/
def get_card_text_spec (card : Card) : List Char :=
  let name := card.name.getD []
  let text := card.oracle_text.getD []
  let text2 := if name.isEmpty then text else replaceSpec thisCardText name false text
  let kws := List.intercalate [' '] (card.keywords.getD [])
  stripChars (text2 ++ ' ' :: kws)

/-- Concrete record: a blue card (color identity `{"U"}`), used to
instantiate theorems on concrete inputs. -/
def cardA : Card :=
  { id := "idA", name := none, oracle_text := none, keywords := none,
    color_identity := some ["U"] }

/-- Concrete record: a colorless card (no `color_identity` entry, so
`card.get("color_identity", [])` is empty). -/
def cardB : Card :=
  { id := "idB", name := none, oracle_text := none, keywords := none,
    color_identity := none }

lemma mem_filterResults {p : ℚ × Card} {candidates : List (ℚ × Card)}
    {excludedId : String} {selected : List String}
    (h : p ∈ filterResults candidates excludedId selected) :
    p ∈ candidates ∧ SIMILARITY_THRESHOLD ≤ p.1 ∧ p.2.id ≠ excludedId := by
  unfold filterResults at h
  split at h
  · rcases List.mem_filter.1 h with ⟨hm, hc⟩
    simp only [Bool.and_eq_true, decide_eq_true_eq, Bool.not_eq_true',
      decide_eq_false_iff_not] at hc
    exact ⟨hm, hc.1, hc.2⟩
  · rcases List.mem_filter.1 h with ⟨h1, _⟩
    rcases List.mem_filter.1 h1 with ⟨hm, hc⟩
    simp only [Bool.and_eq_true, decide_eq_true_eq, Bool.not_eq_true',
      decide_eq_false_iff_not] at hc
    exact ⟨hm, hc.1, hc.2⟩

lemma filterResults_sublist (candidates : List (ℚ × Card))
    (excludedId : String) (selected : List String) :
    List.Sublist (filterResults candidates excludedId selected) candidates := by
  unfold filterResults
  split
  · exact List.filter_sublist candidates
  · exact List.Sublist.trans (List.filter_sublist _) (List.filter_sublist candidates)

lemma findRefIndex_eq_none {cards : List Card} {targetId : String}
    (h : ∀ c ∈ cards, c.id ≠ targetId) :
    findRefIndex cards targetId = none := by
  induction cards with
  | nil => rfl
  | cons c rest ih =>
    unfold findRefIndex
    rw [if_neg (h c (List.mem_cons_self c rest))]
    rw [ih (fun d hd => h d (List.mem_cons_of_mem c hd))]
    rfl

/-- C9: the output of the result filter (self-exclusion and score
floor in one pass, then the color predicate) is an order-preserving
subsequence of its input candidate list: both passes are list
filters, so every kept pair keeps its relative position and no
re-sorting occurs. -/
theorem filter_preserves_order (candidates : List (ℚ × Card))
    (excludedId : String) (selected : List String) :
    List.Sublist (filterResults candidates excludedId selected) candidates :=
  filterResults_sublist candidates excludedId selected

/-- C4: with the threshold `SIMILARITY_THRESHOLD = 0.4`, the result
filter keeps no candidate scoring strictly below the threshold, and a
candidate that the other two criteria do not remove (its id differs
from the excluded id, and the color stage is either skipped or accepts
it) is kept exactly when its score is at least the threshold. -/
theorem score_floor_exact (candidates : List (ℚ × Card))
    (excludedId : String) (selected : List String) :
    (∀ p ∈ filterResults candidates excludedId selected,
        SIMILARITY_THRESHOLD ≤ p.1) ∧
    (∀ p ∈ candidates, p.2.id ≠ excludedId →
      (selected = [] ∨ matches_color selected p.2 = true) →
      (SIMILARITY_THRESHOLD ≤ p.1 ↔
        p ∈ filterResults candidates excludedId selected)) := by
  constructor
  · intro p hp
    exact (mem_filterResults hp).2.1
  · intro p hp hid hcol
    constructor
    · intro hscore
      have hstage : p ∈ candidates.filter
          (fun p => decide (SIMILARITY_THRESHOLD ≤ p.1) &&
            !decide (p.2.id = excludedId)) := by
        refine List.mem_filter.2 ⟨hp, ?_⟩
        simp [hscore, hid]
      unfold filterResults
      split
      · exact hstage
      · rename_i hsel
        refine List.mem_filter.2 ⟨hstage, ?_⟩
        rcases hcol with h | h
        · exact absurd h hsel
        · exact h
    · intro hmem
      exact (mem_filterResults hmem).2.1

/-- C4 witness: in a singleton candidate list whose entry scores 1/2
and is not the query card, the entry is kept. -/
theorem score_floor_exact_check :
    ((1 : ℚ)/2, cardB) ∈ filterResults [((1 : ℚ)/2, cardB)] "idA" [] :=
  ((score_floor_exact [((1 : ℚ)/2, cardB)] "idA" []).2 ((1 : ℚ)/2, cardB)
    (by simp) (by decide) (Or.inl rfl)).mp
    (by norm_num [SIMILARITY_THRESHOLD])

/-- C3: when the colorless marker "C" is among the selected colors,
`matches_color` accepts every card with empty color identity, whatever
else is selected; and a card with a nonempty color identity (which, in
the card data, never contains "C") is accepted exactly when its
identity meets the selected colors. -/
theorem colorless_marker_admits (selected : List String) (card : Card)
    (hC : "C" ∈ selected) :
    (card.color_identity.getD [] = [] → matches_color selected card = true) ∧
    (card.color_identity.getD [] ≠ [] →
      "C" ∉ card.color_identity.getD [] →
      (matches_color selected card = true ↔
        ∃ c, c ∈ card.color_identity.getD [] ∧ c ∈ selected)) := by
  constructor
  · intro hid
    unfold matches_color
    rw [if_pos hC]
    simp [hid, hC]
  · intro hne hCout
    unfold matches_color
    rw [if_pos hC]
    have hemp : (card.color_identity.getD []).isEmpty = false := by
      simpa [List.isEmpty_iff] using hne
    simp only [hemp, Bool.false_and, Bool.false_or, List.any_eq_true,
      Bool.and_eq_true, Bool.not_eq_true', decide_eq_false_iff_not,
      decide_eq_true_eq]
    constructor
    · rintro ⟨c, hcs, hcne, hci⟩
      exact ⟨c, hci, hcs⟩
    · rintro ⟨c, hci, hcs⟩
      refine ⟨c, hcs, ?_, hci⟩
      intro hcC
      exact hCout (hcC ▸ hci)

/-- C3 witness: with "C" and "U" selected, the identity-free card is
accepted and a blue card is accepted through its identity. -/
theorem colorless_marker_admits_check :
    matches_color ["C", "U"] cardB = true ∧
    matches_color ["C", "U"] cardA = true :=
  ⟨(colorless_marker_admits ["C", "U"] cardB (by simp)).1 rfl,
   ((colorless_marker_admits ["C", "U"] cardA (by simp)).2
      (by simp [cardA]) (by simp [cardA])).mpr
     ⟨"U", by simp [cardA], by simp⟩⟩

/-- C5: whatever list of candidate pairs the pipeline assembles, every
pair of a produced result list has a record id different from the
resolved card's id: the filter's first pass removes the query card
from its own results. -/
theorem results_exclude_query (r : ResolverResult) (txt : List Char)
    (resolved : Card) (cards : List Card) (embeddings : List (List ℚ))
    (indexSearch : List ℚ → Nat → List (ℚ × Nat))
    (selected : List String) (normFn : List ℚ → ℚ)
    (rs : List (ℚ × Card))
    (hres : try_get_card_text_from_name r = some (txt, resolved))
    (hrun : runSearch r cards embeddings indexSearch selected normFn =
      SearchOutcome.results rs) :
    ∀ p ∈ rs, p.2.id ≠ resolved.id := by
  simp only [runSearch, hres] at hrun
  cases hfind : findRefIndex cards resolved.id with
  | none =>
    simp only [hfind] at hrun
    exact absurd hrun (fun h => SearchOutcome.noConfusion h)
  | some refIndex =>
    simp only [hfind, SearchOutcome.results.injEq] at hrun
    subst hrun
    intro p hp
    exact (mem_filterResults hp).2.2

/-- C5 witness: a concrete run over a two-card corpus whose index
returns the query card with score 1 and the other card with score 1/2
produces only the other card, whose id differs from the query's. -/
theorem results_exclude_query_check : ((1 : ℚ)/2, cardB).2.id ≠ cardA.id :=
  results_exclude_query (ResolverResult.httpResponse 200 cardA) [] cardA
    [cardA, cardB] [[1, 0], [0, 1]]
    (fun _ _ => [(1, 0), ((1 : ℚ)/2, 1)]) [] (fun _ => 1)
    [((1 : ℚ)/2, cardB)] (by rfl)
    (by
      norm_num [runSearch, try_get_card_text_from_name, cardA, cardB,
        findRefIndex, filterResults, List.filter_cons, SIMILARITY_THRESHOLD]
      decide)
    ((1 : ℚ)/2, cardB) (by simp)

/-- C6: when resolution succeeds but no corpus record carries the
resolved card's id, the pipeline stops with `embeddingNotFound` — an
outcome distinct from `unresolved` and from every (possibly empty)
result list — and this holds for every index collaborator, so no
vector query can influence it. -/
theorem missing_embedding_reported (r : ResolverResult) (txt : List Char)
    (resolved : Card) (cards : List Card) (embeddings : List (List ℚ))
    (indexSearch : List ℚ → Nat → List (ℚ × Nat))
    (selected : List String) (normFn : List ℚ → ℚ)
    (hres : try_get_card_text_from_name r = some (txt, resolved))
    (habs : ∀ c ∈ cards, c.id ≠ resolved.id) :
    runSearch r cards embeddings indexSearch selected normFn =
      SearchOutcome.embeddingNotFound ∧
    SearchOutcome.embeddingNotFound ≠ SearchOutcome.unresolved ∧
    ∀ rs, SearchOutcome.embeddingNotFound ≠ SearchOutcome.results rs := by
  refine ⟨?_, fun h => SearchOutcome.noConfusion h,
    fun rs h => SearchOutcome.noConfusion h⟩
  simp only [runSearch, hres, findRefIndex_eq_none habs]

/-- C6 witness: a corpus containing only the other card forces the
`embeddingNotFound` outcome for a resolved query card. -/
theorem missing_embedding_reported_check :
    runSearch (ResolverResult.httpResponse 200 cardA) [cardB] []
      (fun _ _ => []) [] (fun _ => 0) = SearchOutcome.embeddingNotFound :=
  (missing_embedding_reported (ResolverResult.httpResponse 200 cardA) []
    cardA [cardB] [] (fun _ _ => []) [] (fun _ => 0) (by rfl)
    (by decide)).1

/-- C7: whenever the Scryfall lookup yields nothing — a raised request
(service failure) or a non-200 response — the pipeline stops with
`unresolved`, for every index collaborator, corpus, and filter
setting, so no vector query and no filtering take place. -/
theorem unresolved_short_circuit (r : ResolverResult) (cards : List Card)
    (embeddings : List (List ℚ))
    (indexSearch : List ℚ → Nat → List (ℚ × Nat))
    (selected : List String) (normFn : List ℚ → ℚ)
    (hres : try_get_card_text_from_name r = none) :
    runSearch r cards embeddings indexSearch selected normFn =
      SearchOutcome.unresolved ∧
    ∀ rs, SearchOutcome.unresolved ≠ SearchOutcome.results rs := by
  refine ⟨?_, fun rs h => SearchOutcome.noConfusion h⟩
  simp only [runSearch, hres]

/-- C7 witness: a raised request (the `except` path of
`try_get_card_text_from_name`) ends in the `unresolved` outcome. -/
theorem unresolved_short_circuit_check :
    runSearch ResolverResult.failure [] [] (fun _ _ => []) [] (fun _ => 0) =
      SearchOutcome.unresolved :=
  (unresolved_short_circuit ResolverResult.failure [] [] (fun _ _ => [])
    [] (fun _ => 0) rfl).1

/-- C1 counterexample: a nonempty candidate list given to the result
filter with no selected colors comes back nonempty — the claim that an
empty allowed-color set always yields an empty result is false of the
code, because `if selected_colors:` skips the color pass entirely when
the list is empty. -/
theorem empty_colors_counterexample :
    filterResults [((1 : ℚ)/2, cardB)] "idA" [] ≠ [] := by
  norm_num [filterResults, List.filter_cons, cardB, SIMILARITY_THRESHOLD]
  decide

/-- C1 amended: with no selected colors the color predicate is never
applied (`if selected_colors:` is false), so the result filter returns
exactly the candidates that clear the score floor and differ from the
excluded id; in particular, for a nonempty candidate list all of whose
entries clear both, the output equals the input and is nonempty. -/
theorem empty_colors_skip_filter (candidates : List (ℚ × Card))
    (excludedId : String) (hne : candidates ≠ [])
    (hall : ∀ p ∈ candidates,
      SIMILARITY_THRESHOLD ≤ p.1 ∧ p.2.id ≠ excludedId) :
    filterResults candidates excludedId [] = candidates ∧
    filterResults candidates excludedId [] ≠ [] := by
  have heq : filterResults candidates excludedId [] = candidates := by
    unfold filterResults
    rw [if_pos rfl]
    refine List.filter_eq_self.2 ?_
    intro p hp
    simp [(hall p hp).1, (hall p hp).2]
  exact ⟨heq, by rw [heq]; exact hne⟩

/-- C1 witness: the singleton candidate list of the counterexample
satisfies the amended statement. -/
theorem empty_colors_skip_filter_check :
    filterResults [((1 : ℚ)/2, cardB)] "idA" [] = [((1 : ℚ)/2, cardB)] ∧
    filterResults [((1 : ℚ)/2, cardB)] "idA" [] ≠ [] :=
  empty_colors_skip_filter [((1 : ℚ)/2, cardB)] "idA" (by simp)
    (by
      intro p hp
      rw [List.mem_singleton] at hp
      subst hp
      exact ⟨by norm_num [SIMILARITY_THRESHOLD], by decide⟩)

/-- C2: one search over a one-card corpus whose embedding row is
`[3, 4]` (Euclidean norm exactly 5) leaves the loaded embedding matrix
holding `[3/5, 4/5]` instead of `[3, 4]`: the in-place division of
lines 143-144 writes through the NumPy view onto the shared matrix, so
the loaded state is NOT unchanged after the call. -/
theorem search_mutates_embeddings :
    embeddingsAfterSearch (ResolverResult.httpResponse 200 cardA) [cardA]
      [[3, 4]] (fun _ => 5) ≠ [[3, 4]] := by
  norm_num [embeddingsAfterSearch, try_get_card_text_from_name, cardA,
    findRefIndex, applyQueryNormalization]

/-- C8: a resolved card whose embedding row is the zero vector (norm
exactly 0) drives the pipeline straight through normalization to the
index query and an ordinary `results` outcome — no data-integrity
error is ever reported, because lines 143-144 divide without checking
the norm (in NumPy the row silently becomes NaN; over ℚ the degenerate
query vector is the zero vector). -/
theorem zero_norm_row_not_reported :
    runSearch (ResolverResult.httpResponse 200 cardA) [cardA] [[0, 0]]
      (fun _ _ => []) [] (fun _ => 0) = SearchOutcome.results [] := by
  norm_num [runSearch, try_get_card_text_from_name, cardA, findRefIndex,
    filterResults]

lemma wordOpt_none : wordOpt none = false := rfl

lemma wordOpt_some (c : Char) : wordOpt (some c) = isWordChar c := rfl

lemma ciEq_word {a b : Char} (h : ciEq a b = true) : isWordChar a = isWordChar b := by
  have hl : a.toLower = b.toLower := by simpa [ciEq] using h
  simp [isWordChar, hl]

lemma ciLeading_take_getLast :
    ∀ (name s : List Char), ciLeading name s = true → name ≠ [] →
      wordOpt ((s.take name.length).getLast?) = wordOpt name.getLast?
  | [], _, _, hne => absurd rfl hne
  | a :: name, [], h, _ => by cases name <;> simp [ciLeading] at h
  | [a], b :: bs, h, _ => by
      have hab : ciEq a b = true := by simpa [ciLeading] using h
      simp [wordOpt, ciEq_word hab]
  | a :: a' :: name, b :: bs, h, _ => by
      have hsplit : ciEq a b = true ∧ ciLeading (a' :: name) bs = true := by
        simpa [ciLeading, Bool.and_eq_true] using h
      rcases hsplit with ⟨h1, h2⟩
      cases bs with
      | nil => simp [ciLeading] at h2
      | cons b' bs' =>
        have ih := ciLeading_take_getLast (a' :: name) (b' :: bs') h2 (by simp)
        calc wordOpt (((b :: b' :: bs').take (a :: a' :: name).length).getLast?)
            = wordOpt (((b' :: bs').take (a' :: name).length).getLast?) := by
              simp [List.take_succ_cons, List.getLast?_cons_cons]
          _ = wordOpt ((a' :: name).getLast?) := ih
          _ = wordOpt ((a :: a' :: name).getLast?) := by
              rw [List.getLast?_cons_cons]

lemma matchAt_eq_spec (name : List Char) (prev : Option Char) (s : List Char) :
    matchAt name prev s = matchAtSpec name (wordOpt prev) s := by
  unfold matchAt matchAtSpec boundary
  cases name with
  | nil => simp
  | cons n ns =>
    cases hci : ciLeading (n :: ns) s with
    | false => simp [hci]
    | true =>
      cases s with
      | nil => simp [ciLeading] at hci
      | cons c rest =>
        have hsplit : ciEq n c = true ∧ ciLeading ns rest = true := by
          simpa [ciLeading, Bool.and_eq_true] using hci
        have hw : isWordChar n = isWordChar c := ciEq_word hsplit.1
        have hlast := ciLeading_take_getLast (n :: ns) (c :: rest) hci (by simp)
        simp only [hci, List.head?_cons, wordOpt_some, hw, hlast]

lemma scanSub_eq_replaceSpec (repl name : List Char) (prev : Option Char)
    (s : List Char) :
    scanSub repl name prev s = replaceSpec repl name (wordOpt prev) s := by
  cases s with
  | nil => rw [scanSub, replaceSpec]
  | cons c rest =>
    rw [scanSub, replaceSpec]
    by_cases h : matchAt name prev (c :: rest) = true
    · have hspec : matchAtSpec name (wordOpt prev) (c :: rest) = true :=
        matchAt_eq_spec name prev (c :: rest) ▸ h
      have h' := h
      simp only [matchAt, Bool.and_eq_true] at h'
      have hne : name ≠ [] := by simpa using h'.1.1.1
      have hci : ciLeading name (c :: rest) = true := h'.1.1.2
      have hlen : 1 ≤ name.length := by
        cases name with
        | nil => exact absurd rfl hne
        | cons x xs => simp
      rw [dif_pos h, dif_pos hspec]
      rw [scanSub_eq_replaceSpec repl name (((c :: rest).take name.length).getLast?)
        ((c :: rest).drop name.length)]
      rw [ciLeading_take_getLast name (c :: rest) hci hne]
    · have hspec : ¬ matchAtSpec name (wordOpt prev) (c :: rest) = true := by
        rw [← matchAt_eq_spec]
        exact h
      rw [dif_neg h, dif_neg hspec]
      rw [scanSub_eq_replaceSpec repl name (some c) rest, wordOpt_some]
termination_by s.length
decreasing_by
  · simp [List.length_drop]
    omega
  · simp

/-- C10: `get_card_text` coincides with its specification-side reading
`get_card_text_spec` on every card — oracle text with every
whole-word, case-insensitive occurrence of the card's name replaced by
"this card", then a space and the keywords joined by single spaces,
with surrounding whitespace stripped — and a card with no name, no
oracle text and no keywords yields the empty string. -/
theorem get_card_text_matches_claim :
    (∀ card : Card, get_card_text card = get_card_text_spec card) ∧
    get_card_text emptyCard = [] := by
  constructor
  · intro card
    unfold get_card_text get_card_text_spec
    cases hne : (card.name.getD []).isEmpty with
    | true => simp [hne]
    | false =>
      simp only [hne, Bool.false_eq_true, if_false]
      rw [scanSub_eq_replaceSpec, wordOpt_none]
  · rfl
